import Mathlib

/-!
Shallow embedding of the scenario-execution and scoring engine of
`testsuites/suite.py` (plus the intro checker of `testsuites/intro.py`).

Modelling conventions:

* Python strings are `String`, Python floats are `ℚ` (finite values; the
  program only manipulates finite timeouts, weights and ratios).
* A Python expression that raises an uncaught exception is modelled by
  `none` / fault propagation through `Option`.
* `run.run(...)` performs IO; scenario execution is therefore parameterised
  by an oracle: each step of a sequence is paired with the `Option Runned`
  the Process Runner would produce for it (`none` = timeout signal).
  An event trace records which process invocations and checker calls occur.
-/

namespace Suite

/-- Python `str.splitlines` line-break characters (`\n`, `\r`, `\v`, `\f`,
`\x1c`, `\x1d`, `\x1e`, `\x85`, ` `, ` `; `\r\n` counts as one
break and is handled separately). -/
def isLineBreak (c : Char) : Bool :=
  c == '\n' || c == '\r' || c == '\x0b' || c == '\x0c' ||
  c == '\x1c' || c == '\x1d' || c == '\x1e' || c == '\x85' ||
  c == ' ' || c == ' '

/-- Worker for `splitlines`: `acc` holds the current line reversed. -/
def splitlinesAux : List Char → List Char → List String
  | [], acc => if acc.isEmpty then [] else [String.mk acc.reverse]
  | '\r' :: '\n' :: rest, acc => String.mk acc.reverse :: splitlinesAux rest []
  | c :: rest, acc =>
      if isLineBreak c then String.mk acc.reverse :: splitlinesAux rest []
      else splitlinesAux rest (c :: acc)

/-- Python `s.splitlines()`: split at line-break characters, `\r\n` counting
as a single break; no terminal empty line for a trailing break. -/
def splitlines (s : String) : List String :=
  splitlinesAux s.toList []

/-- Python whitespace characters as stripped by `str.strip` / `lstrip` /
`rstrip` (ASCII subset; the program only strips ASCII output). -/
def isPySpace (c : Char) : Bool :=
  c == ' ' || c == '\t' || c == '\n' || c == '\r' || c == '\x0b' || c == '\x0c'

/-- Python `s.lstrip()`. -/
def pyLstrip (s : String) : String :=
  String.mk (s.toList.dropWhile isPySpace)

/-- Python `s.rstrip()`. -/
def pyRstrip (s : String) : String :=
  String.mk ((s.toList.reverse.dropWhile isPySpace).reverse)

/-- Python whitespace stripping on a character list (`str.strip` as applied
implicitly by `int(...)` and `float(...)`). -/
def pyStrip (l : List Char) : List Char :=
  ((l.dropWhile isPySpace).reverse.dropWhile isPySpace).reverse

/-- Python `s.upper()` (ASCII case mapping; the program only uppercases
ASCII environment-name fragments). -/
def pyUpper (s : String) : String :=
  String.mk (s.toList.map Char.toUpper)

/-- Numeric value of a list of decimal digit characters. -/
def natOfDigits (l : List Char) : Nat :=
  l.foldl (fun a c => a * 10 + (c.toNat - 48)) 0

/-- Python `int(s)` on a string: surrounding whitespace stripped, optional
sign, then a non-empty run of decimal digits; `none` models the
`ValueError` raised otherwise. (Digit-group underscores, which never occur
in this program's data, are not modelled.) -/
def pyIntOfString (s : String) : Option Int :=
  let l := pyStrip s.toList
  let sl : Int × List Char :=
    match l with
    | '+' :: r => (1, r)
    | '-' :: r => (-1, r)
    | _ => (1, l)
  if sl.2 ≠ [] ∧ sl.2.all Char.isDigit then
    some (sl.1 * (natOfDigits sl.2 : Int))
  else none

/-- Python `float(s)` on a string holding a finite decimal literal:
surrounding whitespace stripped, optional sign, `digits[.digits]` with at
least one digit, optional `e`/`E` exponent with optional sign and non-empty
digits; `none` models the `ValueError` raised otherwise. (Digit-group
underscores and the `inf`/`nan` spellings, which never occur in this
program's data, are not modelled.) -/
def pyFloatOfString (s : String) : Option ℚ :=
  let l := pyStrip s.toList
  let sl : ℚ × List Char :=
    match l with
    | '+' :: r => (1, r)
    | '-' :: r => (-1, r)
    | _ => (1, l)
  let mant := sl.2.takeWhile (fun c => c != 'e' && c != 'E')
  let erest := sl.2.dropWhile (fun c => c != 'e' && c != 'E')
  let intPart := mant.takeWhile (fun c => c != '.')
  let fracRest := mant.dropWhile (fun c => c != '.')
  let fracPart? : Option (List Char) :=
    match fracRest with
    | [] => some []
    | '.' :: fr => if fr.all Char.isDigit then some fr else none
    | _ => none
  let exp? : Option Int :=
    match erest with
    | [] => some 0
    | _ :: er =>
      let esl : Int × List Char :=
        match er with
        | '+' :: r => (1, r)
        | '-' :: r => (-1, r)
        | _ => (1, er)
      if esl.2 ≠ [] ∧ esl.2.all Char.isDigit then
        some (esl.1 * (natOfDigits esl.2 : Int))
      else none
  match fracPart?, exp? with
  | some fracPart, some expv =>
    if intPart.all Char.isDigit ∧ (intPart ≠ [] ∨ fracPart ≠ []) then
      some (sl.1 * ((natOfDigits intPart : ℚ) +
              (natOfDigits fracPart : ℚ) / 10 ^ fracPart.length) *
            (10 : ℚ) ^ (expv : ℤ))
    else none
  | _, _ => none

/-- Embedding of `escape` (suite.py lines 12-23): fold over the characters,
appending the two-character escape for a newline, carriage return or tab,
and the character itself otherwise. -/
def escape (s : String) : String :=
  s.toList.foldl (fun escaped c =>
    if c == '\n' then escaped ++ "\\n"
    else if c == '\r' then escaped ++ "\\r"
    else if c == '\t' then escaped ++ "\\t"
    else escaped ++ c.toString) ""

/-- Per-character escaping map, following the specification's wording: each
of newline, carriage return, tab is replaced by its two-character escape
sequence; every other character passes through unchanged. -/
def escapeChar (c : Char) : String :=
  if c == '\n' then "\\n"
  else if c == '\r' then "\\r"
  else if c == '\t' then "\\t"
  else c.toString

/-- The verdict taxonomy `VerdictErrno` (suite.py lines 45-53). -/
inductive VerdictErrno where
  | ERROR_SUCCESS
  | ERROR_RETURNCODE
  | ERROR_ASSERTION
  | ERROR_TIMEOUT
  | ERROR_STDERR_EMPTY
  | ERROR_STDERR_IS_NOT_EMPTY
  | ERROR_TYPE_ERROR
  | ERROR_INVALID_FORMAT
deriving DecidableEq, Repr

/-- Enum member values of `VerdictErrno` (`verdict_message` returns these). -/
def VerdictErrno.value : VerdictErrno → String
  | .ERROR_SUCCESS => "success"
  | .ERROR_RETURNCODE => "program returns wrong returncode"
  | .ERROR_ASSERTION => "assertion"
  | .ERROR_TIMEOUT => "timeout expired"
  | .ERROR_STDERR_EMPTY => "standard error output is empty"
  | .ERROR_STDERR_IS_NOT_EMPTY => "standard error output is not empty"
  | .ERROR_TYPE_ERROR => "type error"
  | .ERROR_INVALID_FORMAT => "invalid format"

/-- The `Verdict` class (suite.py lines 55-83), after `__init__` has
normalised `extended_what` to a list of lines. -/
structure Verdict where
  verdict_errno : VerdictErrno
  what? : Option String
  extended_what : List String
  extended_what_is_hint : Bool
deriving DecidableEq, Repr

/-- `Verdict.__init__` with a `str` passed for `extended_what`: the string
is split into lines via `splitlines`. -/
def Verdict.ofStrExt (e : VerdictErrno) (what? : Option String)
    (extended_what : String) (hint : Bool) : Verdict :=
  ⟨e, what?, splitlines extended_what, hint⟩

/-- `Verdict.is_success`. -/
def Verdict.is_success (v : Verdict) : Bool :=
  v.verdict_errno == .ERROR_SUCCESS

/-- `Verdict.is_failed`. -/
def Verdict.is_failed (v : Verdict) : Bool :=
  !v.is_success

/-- `Verdict.verdict_message`. -/
def Verdict.verdict_message (v : Verdict) : String :=
  v.verdict_errno.value

/-- `Verdict.what`: the stored message, or the default text when absent. -/
def Verdict.what (v : Verdict) : String :=
  v.what?.getD "no additional information"

/-- The `ok()` helper (suite.py lines 85-86). -/
def ok : Verdict :=
  ⟨.ERROR_SUCCESS, none, [], false⟩

/-- The `Runned` outcome record (suite.py lines 88-109). -/
structure Runned where
  c_returncode : Int
  c_stdout : String
  c_stderr : String
  c_start : Int
  c_end : Int
deriving DecidableEq, Repr

/-- The `ReturnCodePolicy` enum (suite.py lines 114-117). -/
inductive ReturnCodePolicy where
  | MatchIfPresented
  | ShouldBeZero
  | ShouldNotBeZero
deriving DecidableEq, Repr

/-- The `Run` invocation spec (suite.py lines 119-164): a timeout, optional
stdin payload, optional argument vector, a return-code policy with optional
expected code, optional expected stdout, and the stderr-must-be-empty flag. -/
structure Run where
  c_timeout : ℚ
  c_stdin : Option String
  c_args : Option (List String)
  t_returncode_policy : ReturnCodePolicy
  t_returncode : Option Int
  t_stdout : Option String
  t_stderr_empty : Bool
deriving DecidableEq, Repr

/-- Embedding of `Test.__pretest` (suite.py lines 214-239): first the stderr
emptiness checks, then the return-code policy checks, else `ok()`. -/
def pretest (run : Run) (runned : Runned) : Verdict :=
  let stderr_should_be_empty := run.t_stderr_empty
  let c_stderr := runned.c_stderr
  let is_empty_stderr := c_stderr == ""
  if stderr_should_be_empty && !is_empty_stderr then
    Verdict.ofStrExt .ERROR_STDERR_IS_NOT_EMPTY
      (some "below is what was in the stderr") c_stderr false
  else if !stderr_should_be_empty && is_empty_stderr then
    ⟨.ERROR_STDERR_EMPTY, none, [], false⟩
  else
    let actual_returncode := runned.c_returncode
    match run.t_returncode_policy with
    | .ShouldBeZero =>
      if actual_returncode ≠ 0 then
        ⟨.ERROR_RETURNCODE,
         some ("expected 0, but actual is " ++ toString actual_returncode),
         [], false⟩
      else ok
    | .ShouldNotBeZero =>
      if actual_returncode = 0 then
        ⟨.ERROR_RETURNCODE,
         some ("expected non-zero returncode, but actual is " ++
               toString actual_returncode),
         [], false⟩
      else ok
    | .MatchIfPresented =>
      match run.t_returncode with
      | some expected_returncode =>
        if actual_returncode ≠ expected_returncode then
          ⟨.ERROR_RETURNCODE,
           some ("expected " ++ toString expected_returncode ++
                 ", but actual is " ++ toString actual_returncode),
           [], false⟩
        else ok
      | none => ok

/-- The `Timeout` verdict built in `Test.__invoke` (suite.py line 262) when
`run.run` returns no outcome. -/
def timeout_verdict (run : Run) (timeout_factor : ℚ) : Verdict :=
  ⟨.ERROR_TIMEOUT,
   some ("executed in more than " ++ toString (run.c_timeout * timeout_factor) ++ "s"),
   [], false⟩

/-- The pluggable `Expected` checker contract: `test(run, runned) -> Verdict`. -/
def Expected : Type :=
  Run → Runned → Verdict

/-- A `SingleTest`: one `Run` paired with an optional checker. -/
def SingleTest : Type :=
  Run × Option Expected

/-- Observable events of scenario execution: the Process Runner being
invoked for step `i`, and step `i`'s checker being invoked. -/
inductive Event where
  | runStep (i : Nat)
  | checkStep (i : Nat)
deriving DecidableEq, Repr

/-- Embedding of the loop of `Test.__invoke` (suite.py lines 255-280),
instrumented with an event trace. Each step is paired with the outcome the
Process Runner would produce for it (`none` = timeout signal); `i` is the
absolute index of the first remaining step. The result is the scenario
verdict together with the trace of process invocations and checker calls. -/
def invokeAux (timeout_factor : ℚ) :
    Nat → List (SingleTest × Option Runned) → Verdict × List Event
  | _, [] => (ok, [])
  | i, ((run, expected), oRunned) :: rest =>
    match oRunned with
    | none => (timeout_verdict run timeout_factor, [.runStep i])
    | some runned =>
      let v := pretest run runned
      if v.is_failed then (v, [.runStep i])
      else
        match expected with
        | some e =>
          let v2 := e run runned
          if v2.is_failed then (v2, [.runStep i, .checkStep i])
          else
            let r := invokeAux timeout_factor (i + 1) rest
            (r.1, .runStep i :: .checkStep i :: r.2)
        | none =>
          let r := invokeAux timeout_factor (i + 1) rest
          (r.1, .runStep i :: r.2)

/-- `Test.__invoke` on a sequence of steps paired with their oracle
outcomes: run steps left to right, stopping at the first failure; `ok()`
when every step passes. -/
def invoke (timeout_factor : ℚ)
    (steps : List (SingleTest × Option Runned)) : Verdict × List Event :=
  invokeAux timeout_factor 0 steps

/-- The verdict a single step would yield when executed: the timeout verdict
if the Process Runner signals timeout, else the pretest verdict if it fails,
else the checker's verdict (or `ok()` with no checker attached). -/
def step_verdict (timeout_factor : ℚ) : SingleTest × Option Runned → Verdict
  | ((run, _), none) => timeout_verdict run timeout_factor
  | ((run, expected), some runned) =>
    let v := pretest run runned
    if v.is_failed then v
    else
      match expected with
      | some e => e run runned
      | none => ok

/-- Embedding of the intro suite's `__Expected.test` (intro.py lines 22-44)
for operands `a` and `b`: format checks on stdout, then `int(line)` (a
parse failure, i.e. the `ValueError` caught by the `except` clause, yields
the `TypeError` verdict), then the sum assertion. -/
def introExpectedTest (a b : Int) (_run : Run) (runned : Runned) : Verdict :=
  let output := runned.c_stdout
  if !(['\n'].isSuffixOf output.toList) then
    ⟨.ERROR_INVALID_FORMAT, some "newline at stdout's end expected", [], false⟩
  else
    let lines := splitlines output
    if lines.length ≠ 1 then
      ⟨.ERROR_INVALID_FORMAT, some "single line expected", [], false⟩
    else
      let line := lines.headD ""
      if line ≠ pyLstrip line ∨ line ≠ pyRstrip line then
        ⟨.ERROR_INVALID_FORMAT,
         some "found unexpected space characters in stdout", [], false⟩
      else
        match pyIntOfString line with
        | none =>
          ⟨.ERROR_TYPE_ERROR,
           some ("can't convert \"" ++ escape output ++ "\" to integer"),
           [], false⟩
        | some actual =>
          let expected := a + b
          if actual ≠ expected then
            Verdict.ofStrExt .ERROR_ASSERTION
              (some (toString a ++ " + " ++ toString b ++ " = " ++
                     toString expected ++ ", (actual: " ++ toString actual ++ ")"))
              "check math" true
          else ok

/-- A `Test` (scenario) as the reporting code sees it (suite.py lines
193-212): a name, category labels and the ordered step sequence.
Python stores the categories as a `set`; only membership is ever used, so
they are modelled as a list queried by membership. -/
structure Test where
  name : String
  categories : List String
  sequence : List SingleTest

/-- The `Result` aggregate (suite.py lines 289-298): the suite's scenarios
paired positionally with the verdicts accumulated by `add`. -/
structure Result where
  tests : List Test
  verdicts : List Verdict

/-- `Result.__get_passed_by_category`: scenarios counted over
`zip(tests, verdicts)` whose verdict is a success and whose category set
contains `category`. -/
def get_passed_by_category (r : Result) (category : String) : Nat :=
  (r.tests.zip r.verdicts).countP
    (fun p => p.2.is_success && p.1.categories.contains category)

/-- `Result.__get_total_by_category`: scenarios counted over
`zip(tests, verdicts)` whose category set contains `category`. -/
def get_total_by_category (r : Result) (category : String) : Nat :=
  (r.tests.zip r.verdicts).countP
    (fun p => p.1.categories.contains category)

/-- `Result.__get_result_by_category`: `passed / total` as Python float
division. When `total == 0` the division raises `ZeroDivisionError`
(no fallback exists in the code), modelled as `none`. -/
def get_result_by_category (r : Result) (category : String) : Option ℚ :=
  let total := get_total_by_category r category
  let passed := get_passed_by_category r category
  if total = 0 then none
  else some ((passed : ℚ) / (total : ℚ))

/-- `Result.__calculate_total`: fold over the coefficient map's entries,
accumulating `ratio * coefficient`; a fault in any per-category ratio
propagates. -/
def calculate_total (r : Result) (coefficients : List (String × ℚ)) : Option ℚ :=
  coefficients.foldl
    (fun acc p => acc.bind
      (fun t => (get_result_by_category r p.1).map (fun res => t + res * p.2)))
    (some 0)

/-- `Result.__get_results_by_categories`: the per-category ratio map, built
left to right as the source's loop builds its dict; a fault in any ratio
propagates. -/
def get_results_by_categories (r : Result) (categories : List String) :
    Option (List (String × ℚ)) :=
  categories.foldl
    (fun acc c => acc.bind
      (fun l => (get_result_by_category r c).map (fun v => l ++ [(c, v)])))
    (some [])

/-- Heterogeneous JSON values as produced for the exported report. -/
inductive JsonVal where
  | str (s : String)
  | num (q : ℚ)
  | int (n : Int)
  | bool (b : Bool)
  | arr (elems : List JsonVal)
  | obj (fields : List (String × JsonVal))

/-- The per-step record built in `Result.__get_results` (suite.py lines
362-376): every absent optional field serialises as the empty string, and
present stdin and argument values are escaped. -/
def run_record (r : Run) : List (String × JsonVal) :=
  [("timeout", .num r.c_timeout),
   ("stdin", match r.c_stdin with
             | some s => .str (escape s)
             | none => .str ""),
   ("args", match r.c_args with
            | some as => .arr (as.map (fun a => .str (escape a)))
            | none => .str ""),
   ("expected_returncode", match r.t_returncode with
                           | some n => .int n
                           | none => .str ""),
   ("expected_stdout", match r.t_stdout with
                       | some s => .str s
                       | none => .str ""),
   ("stderr_should_be_empty", .bool r.t_stderr_empty)]

/-- `Result.__get_results`: the flat list of per-scenario records. -/
def get_results (r : Result) : List (List (String × JsonVal)) :=
  (r.tests.zip r.verdicts).enum.map (fun p =>
    [("id", .int (p.1 : Int)),
     ("name", .str p.2.1.name),
     ("categories", .arr (p.2.1.categories.map JsonVal.str)),
     ("passed", .bool p.2.2.is_success),
     ("verdict", .str p.2.2.verdict_message),
     ("what", .str (if p.2.2.is_failed then p.2.2.what else "")),
     ("runs", .arr (p.2.1.sequence.map (fun st => .obj (run_record st.1))))])

/-- The JSON object written by `Result.export_report` (suite.py lines
382-394): overall score first, then the per-category ratio map over the
coefficient map's keys, then the per-scenario records; a fault in the
score or ratio computation propagates. -/
def export_report_obj (r : Result) (coefficients : List (String × ℚ)) :
    Option (List (String × JsonVal)) := do
  let total ← calculate_total r coefficients
  let cats ← get_results_by_categories r (coefficients.map Prod.fst)
  pure [("result", .num total),
        ("categories", .obj (cats.map (fun p => (p.1, .num p.2)))),
        ("tests", .arr ((get_results r).map JsonVal.obj))]

/-- `Testsuite.get_coefficients` (suite.py lines 436-454): for each category
look up `{PREFIX}_{SUITE_NAME}_{CATEGORY_ENV_NAME}` (prefix and suite name
uppercased) in the environment; an unset variable yields `0.0`. A set value
goes through `float(value)`, which raises `ValueError` on an unparsable
string; the source's `except TypeError` handler does not catch `ValueError`
(and `float` never raises `TypeError` on a `str` argument), so the fault
propagates, modelled as `none`. -/
def get_coefficients (prefenvname name : String)
    (catenvnames : List (String × String)) (env : String → Option String) :
    Option (List (String × ℚ)) :=
  catenvnames.mapM (fun p =>
    let key := pyUpper prefenvname ++ "_" ++ pyUpper name ++ "_" ++ p.2
    match env key with
    | none => some (p.1, 0)
    | some value =>
      match pyFloatOfString value with
      | none => none
      | some q => some (p.1, q))

/-- Per-category pass ratio as the claim words it: the count of scenarios
with a `Success` verdict whose category set contains the category, divided
by the count of all scenarios whose category set contains the category. -/
def ratio_spec (r : Result) (c : String) : ℚ :=
  ((r.tests.zip r.verdicts).countP
      (fun p => p.2.verdict_errno == .ERROR_SUCCESS && p.1.categories.contains c) : ℚ) /
  ((r.tests.zip r.verdicts).countP (fun p => p.1.categories.contains c) : ℚ)

/-- The verdict values the program can construct: the canonical success
verdict, the results of the uniform precondition check, the timeout verdict
of scenario execution, and the intro suite's checker results. -/
def ProgramVerdict (v : Verdict) : Prop :=
  v = ok ∨
  (∃ run runned, v = pretest run runned) ∨
  (∃ run tf, v = timeout_verdict run tf) ∨
  (∃ a b run runned, v = introExpectedTest a b run runned)

/-! ## General lemmas -/

lemma join_cons (x : String) (xs : List String) :
    String.join (x :: xs) = x ++ String.join xs := by
  simp only [String.join_eq, List.map_cons, List.flatten_cons]
  rfl

lemma escape_foldl (l : List Char) (a : String) :
    l.foldl (fun escaped c =>
      if c == '\n' then escaped ++ "\\n"
      else if c == '\r' then escaped ++ "\\r"
      else if c == '\t' then escaped ++ "\\t"
      else escaped ++ c.toString) a = a ++ String.join (l.map escapeChar) := by
  induction l generalizing a with
  | nil => simp [String.join]
  | cons c l ih =>
    simp only [List.foldl_cons, List.map_cons, join_cons, ih]
    rw [← String.append_assoc]
    congr 1
    simp only [escapeChar]
    split_ifs <;> rfl

/-- C7: the escaping function replaces each newline, carriage return and tab
character with its two-character escape sequence and leaves every other
character unchanged, so that the whole output is the concatenation of the
per-character images; in particular the raw text `a TAB b NEWLINE` renders
as the six characters `a \ t b \ n`. -/
theorem c7_escape_pointwise :
    (∀ s : String, escape s = String.join (s.toList.map escapeChar)) ∧
    escape "a\tb\n" = "a\\tb\\n" := by
  constructor
  · intro s
    have h := escape_foldl s.toList ""
    simpa [escape, String.empty_append] using h
  · decide

/-- C10: the escaping function is not injective: the two-character string
backslash-n and the one-character newline string both escape to the same
two characters backslash-n, because a backslash itself is never escaped. -/
theorem c10_escape_not_injective :
    escape "\\n" = escape "\n" ∧ ("\\n" : String) ≠ "\n" ∧
    ¬Function.Injective escape := by
  refine ⟨by decide, by decide, fun h => ?_⟩
  exact absurd (h (show escape "\\n" = escape "\n" by decide)) (by decide)

/-- C1: contrary to the specification's required fallback of `0.0`, the
per-category pass ratio of a category with zero scenarios is a division by
zero: `passed / total` faults (modelled as `none`) and the fault propagates
into the overall score. Evaluated at a concrete suite result with no
scenarios and the coefficient map assigning weight 1 to category `X`. -/
theorem c1_zero_scenario_category_faults :
    get_result_by_category ⟨[], []⟩ "X" = none ∧
    calculate_total ⟨[], []⟩ [("X", 1)] = none := by
  exact ⟨rfl, rfl⟩

/-- C6: a coefficient read from the environment defaults to `0.0` when the
variable is unset, but when the variable is set to a value unparsable as a
number, `float(value)` raises `ValueError`, which the `except TypeError`
handler does not catch: the lookup faults (modelled as `none`) instead of
defaulting to `0.0`. Evaluated for the intro suite's category with the
variable unset and with the unparsable value `"abc"`. -/
theorem c6_unparsable_env_value_faults :
    get_coefficients "skkv_cpp" "intro" [("a + b", "A_PLUS_B")]
      (fun _ => none) = some [("a + b", 0)] ∧
    get_coefficients "skkv_cpp" "intro" [("a + b", "A_PLUS_B")]
      (fun k => if k = "SKKV_CPP_INTRO_A_PLUS_B" then some "abc" else none) =
      none := by
  exact ⟨rfl, by decide⟩

/-- C3: for every invocation spec and outcome, if the spec requires empty
stderr and the captured stderr is non-empty, the uniform precondition check
returns a `StderrNotEmpty` verdict carrying the full stderr text (as its
lines) as extended detail, regardless of stdout content, exit code or the
exit-code policy; if the spec requires non-empty stderr and stderr is
empty, it returns a `StderrEmpty` verdict. -/
theorem c3_pretest_stderr (run : Run) (runned : Runned) :
    (run.t_stderr_empty = true → runned.c_stderr ≠ "" →
      pretest run runned =
        ⟨.ERROR_STDERR_IS_NOT_EMPTY, some "below is what was in the stderr",
         splitlines runned.c_stderr, false⟩) ∧
    (run.t_stderr_empty = false → runned.c_stderr = "" →
      pretest run runned = ⟨.ERROR_STDERR_EMPTY, none, [], false⟩) := by
  constructor
  · intro h1 h2
    simp [pretest, Verdict.ofStrExt, h1, h2]
  · intro h1 h2
    simp [pretest, h1, h2]

/-- Witness for C3 at concrete inputs: a spec requiring empty stderr with
captured stderr `"oops"`, and a spec requiring non-empty stderr with empty
captured stderr. -/
theorem c3_pretest_stderr_witness :
    pretest ⟨1, none, none, .ShouldBeZero, none, none, true⟩ ⟨0, "", "oops", 0, 0⟩ =
      ⟨.ERROR_STDERR_IS_NOT_EMPTY, some "below is what was in the stderr",
       splitlines "oops", false⟩ ∧
    pretest ⟨1, none, none, .ShouldBeZero, none, none, false⟩ ⟨0, "", "", 0, 0⟩ =
      ⟨.ERROR_STDERR_EMPTY, none, [], false⟩ := by
  exact ⟨(c3_pretest_stderr _ _).1 rfl (by decide),
         (c3_pretest_stderr _ _).2 rfl rfl⟩

/-- C9: in the per-step record of the exported report, each absent optional
field of the invocation spec — stdin payload, argument vector, expected
exit code, expected stdout — serialises as the empty string (in particular
`args` becomes `""` rather than an empty array), while present stdin and
argument values are escaped per the diagnostic escaping rule. -/
theorem c9_run_record_serialization (r : Run) :
    (r.c_stdin = none →
      (run_record r).lookup "stdin" = some (.str "")) ∧
    (r.c_args = none →
      (run_record r).lookup "args" = some (.str "")) ∧
    (r.t_returncode = none →
      (run_record r).lookup "expected_returncode" = some (.str "")) ∧
    (r.t_stdout = none →
      (run_record r).lookup "expected_stdout" = some (.str "")) ∧
    (∀ s, r.c_stdin = some s →
      (run_record r).lookup "stdin" = some (.str (escape s))) ∧
    (∀ as, r.c_args = some as →
      (run_record r).lookup "args" =
        some (.arr (as.map (fun a => .str (escape a))))) := by
  refine ⟨fun h => ?_, fun h => ?_, fun h => ?_, fun h => ?_,
          fun s h => ?_, fun as h => ?_⟩ <;>
    simp [run_record, List.lookup, h]

/-- Witness for C9: a spec with no stdin, arguments nor expectations
serialises the optional fields as empty strings, and a spec with stdin
`"1 2\n"` and one tab-holding argument serialises them escaped. -/
theorem c9_run_record_serialization_witness :
    (run_record ⟨1, none, none, .ShouldBeZero, none, none, true⟩).lookup "args" =
      some (.str "") ∧
    (run_record ⟨1, some "1 2\n", some ["a\tb"], .ShouldBeZero, none, none,
        true⟩).lookup "args" =
      some (.arr [.str "a\\tb"]) := by
  constructor
  · exact (c9_run_record_serialization _).2.1 rfl
  · have h := (c9_run_record_serialization
      ⟨1, some "1 2\n", some ["a\tb"], .ShouldBeZero, none, none, true⟩).2.2.2.2.2
      ["a\tb"] rfl
    rw [h]
    have he : escape "a\tb" = "a\\tb" := by decide
    rw [List.map_cons, List.map_nil, he]

lemma pretest_hint_false (run : Run) (runned : Runned) :
    (pretest run runned).extended_what_is_hint = false := by
  unfold pretest Verdict.ofStrExt ok
  dsimp only
  repeat' split
  all_goals rfl

lemma introExpectedTest_hint (a b : Int) (run : Run) (runned : Runned)
    (h : (introExpectedTest a b run runned).extended_what_is_hint = true) :
    (introExpectedTest a b run runned).extended_what.length = 1 := by
  revert h
  unfold introExpectedTest Verdict.ofStrExt ok
  dsimp only
  repeat' split
  all_goals intro h
  all_goals first
    | rfl
    | exact absurd h (by simp)

/-- C8: for every verdict the program constructs, if its hint flag
(`extended_what_is_hint`) is set then its extended detail consists of
exactly one line, so the hint form and the multi-line dump form are
mutually exclusive. -/
theorem c8_hint_single_line (v : Verdict) (hv : ProgramVerdict v)
    (hh : v.extended_what_is_hint = true) : v.extended_what.length = 1 := by
  rcases hv with h | ⟨run, runned, h⟩ | ⟨run, tf, h⟩ | ⟨a, b, run, runned, h⟩
  · subst h; exact absurd hh (by simp [ok])
  · subst h; exact absurd hh (by simp [pretest_hint_false])
  · subst h; exact absurd hh (by simp [timeout_verdict])
  · subst h; exact introExpectedTest_hint a b run runned hh

/-- Witness for C8: the intro checker's assertion verdict for `2 + 7` with
actual output `8` sets the hint flag, and its extended detail is the single
line `check math`. -/
theorem c8_hint_single_line_witness :
    (introExpectedTest 2 7 ⟨1, none, none, .ShouldBeZero, none, none, true⟩
      ⟨0, "8\n", "", 0, 0⟩).extended_what.length = 1 :=
  c8_hint_single_line _
    (Or.inr (Or.inr (Or.inr ⟨2, 7, _, _, rfl⟩)))
    (by decide)

lemma get_result_by_category_eq (r : Result) (c : String)
    (h : get_total_by_category r c ≠ 0) :
    get_result_by_category r c = some (ratio_spec r c) := by
  simp only [get_result_by_category]
  rw [if_neg h]
  rfl

lemma calculate_total_go (r : Result) (coeffs : List (String × ℚ)) (t : ℚ)
    (h : ∀ p ∈ coeffs, get_total_by_category r p.1 ≠ 0) :
    coeffs.foldl
      (fun acc p => acc.bind
        (fun tt => (get_result_by_category r p.1).map (fun res => tt + res * p.2)))
      (some t)
    = some (t + (coeffs.map (fun p => ratio_spec r p.1 * p.2)).sum) := by
  induction coeffs generalizing t with
  | nil => simp
  | cons p ps ih =>
    have h1 : get_total_by_category r p.1 ≠ 0 := h p (List.mem_cons_self p ps)
    have h2 : ∀ q ∈ ps, get_total_by_category r q.1 ≠ 0 :=
      fun q hq => h q (List.mem_cons_of_mem p hq)
    simp only [List.foldl_cons, Option.some_bind, get_result_by_category_eq r p.1 h1,
      Option.map_some', ih _ h2, List.map_cons, List.sum_cons]
    rw [add_assoc]

lemma calculate_total_eq (r : Result) (coeffs : List (String × ℚ))
    (h : ∀ p ∈ coeffs, get_total_by_category r p.1 ≠ 0) :
    calculate_total r coeffs =
      some ((coeffs.map (fun p => ratio_spec r p.1 * p.2)).sum) := by
  have hgo := calculate_total_go r coeffs 0 h
  simpa [calculate_total] using hgo

lemma get_results_by_categories_go (r : Result) (cats : List String)
    (h : ∀ c ∈ cats, get_total_by_category r c ≠ 0) (l0 : List (String × ℚ)) :
    cats.foldl
      (fun acc c => acc.bind
        (fun l => (get_result_by_category r c).map (fun v => l ++ [(c, v)])))
      (some l0)
    = some (l0 ++ cats.map (fun c => (c, ratio_spec r c))) := by
  induction cats generalizing l0 with
  | nil => simp
  | cons c cs ih =>
    simp only [List.foldl_cons, Option.some_bind,
      get_result_by_category_eq r c (h c (List.mem_cons_self c cs)),
      Option.map_some', ih (fun d hd => h d (List.mem_cons_of_mem c hd)),
      List.map_cons]
    simp

lemma get_results_by_categories_eq (r : Result) (cats : List String)
    (h : ∀ c ∈ cats, get_total_by_category r c ≠ 0) :
    get_results_by_categories r cats =
      some (cats.map (fun c => (c, ratio_spec r c))) := by
  have hgo := get_results_by_categories_go r cats h []
  simpa [get_results_by_categories] using hgo

/-- C2: under the coefficient maps for which the scoring code completes
(every coefficient-map key tags at least one scenario; otherwise the code
faults, see C1), the overall score in the exported report equals the sum
over the coefficient map's keys of the per-category pass ratio — successes
tagged with the category over all scenarios tagged with the category —
times that category's weight; categories attached to scenarios but absent
from the coefficient map contribute nothing to the sum. -/
theorem c2_weighted_score (r : Result) (coefficients : List (String × ℚ))
    (h : ∀ p ∈ coefficients, get_total_by_category r p.1 ≠ 0) :
    ∃ fields, export_report_obj r coefficients = some fields ∧
      fields.lookup "result" =
        some (.num ((coefficients.map (fun p => ratio_spec r p.1 * p.2)).sum)) := by
  have hl := get_results_by_categories_eq r (coefficients.map Prod.fst)
    (by
      intro c hc
      obtain ⟨p, hp, rfl⟩ := List.mem_map.1 hc
      exact h p hp)
  have hc := calculate_total_eq r coefficients h
  have hobj : export_report_obj r coefficients =
      some [("result", .num ((coefficients.map (fun p => ratio_spec r p.1 * p.2)).sum)),
            ("categories", .obj (((coefficients.map Prod.fst).map
              (fun c => (c, ratio_spec r c))).map (fun p => (p.1, JsonVal.num p.2)))),
            ("tests", .arr ((get_results r).map JsonVal.obj))] := by
    simp [export_report_obj, hc, hl]
  exact ⟨_, hobj, rfl⟩

/-- Witness for C2: three scenarios tagged `X` with verdicts pass, pass,
fail and coefficient map `X = 1` give overall score `2/3`. -/
theorem c2_weighted_score_witness :
    (∃ fields,
      export_report_obj
        ⟨[⟨"t1", ["X"], []⟩, ⟨"t2", ["X"], []⟩, ⟨"t3", ["X"], []⟩],
         [ok, ok, ⟨.ERROR_ASSERTION, none, [], false⟩]⟩
        [("X", 1)] = some fields ∧
      fields.lookup "result" =
        some (.num (([(("X" : String), (1 : ℚ))].map
          (fun p => ratio_spec
            ⟨[⟨"t1", ["X"], []⟩, ⟨"t2", ["X"], []⟩, ⟨"t3", ["X"], []⟩],
             [ok, ok, ⟨.ERROR_ASSERTION, none, [], false⟩]⟩ p.1 * p.2)).sum))) ∧
    ratio_spec
      ⟨[⟨"t1", ["X"], []⟩, ⟨"t2", ["X"], []⟩, ⟨"t3", ["X"], []⟩],
       [ok, ok, ⟨.ERROR_ASSERTION, none, [], false⟩]⟩ "X" = 2 / 3 := by
  constructor
  · exact c2_weighted_score _ _ (by decide)
  · rfl

/-! ## Unfolding lemmas for scenario execution -/

lemma invokeAux_cons_none (tf : ℚ) (n : Nat) (run : Run)
    (expected : Option Expected) (rest : List (SingleTest × Option Runned)) :
    invokeAux tf n (((run, expected), none) :: rest) =
      (timeout_verdict run tf, [.runStep n]) := rfl

lemma invokeAux_cons_pretest_fail (tf : ℚ) (n : Nat) (run : Run)
    (expected : Option Expected) (runned : Runned)
    (rest : List (SingleTest × Option Runned))
    (hp : (pretest run runned).is_failed = true) :
    invokeAux tf n (((run, expected), some runned) :: rest) =
      (pretest run runned, [.runStep n]) := by
  simp [invokeAux, hp]

lemma invokeAux_cons_check_fail (tf : ℚ) (n : Nat) (run : Run) (e : Expected)
    (runned : Runned) (rest : List (SingleTest × Option Runned))
    (hp : (pretest run runned).is_failed = false)
    (he : (e run runned).is_failed = true) :
    invokeAux tf n (((run, some e), some runned) :: rest) =
      (e run runned, [.runStep n, .checkStep n]) := by
  simp [invokeAux, hp, he]

lemma invokeAux_cons_check_ok (tf : ℚ) (n : Nat) (run : Run) (e : Expected)
    (runned : Runned) (rest : List (SingleTest × Option Runned))
    (hp : (pretest run runned).is_failed = false)
    (he : (e run runned).is_failed = false) :
    invokeAux tf n (((run, some e), some runned) :: rest) =
      ((invokeAux tf (n + 1) rest).1,
       .runStep n :: .checkStep n :: (invokeAux tf (n + 1) rest).2) := by
  simp [invokeAux, hp, he]

lemma invokeAux_cons_nochk (tf : ℚ) (n : Nat) (run : Run) (runned : Runned)
    (rest : List (SingleTest × Option Runned))
    (hp : (pretest run runned).is_failed = false) :
    invokeAux tf n (((run, none), some runned) :: rest) =
      ((invokeAux tf (n + 1) rest).1,
       .runStep n :: (invokeAux tf (n + 1) rest).2) := by
  simp [invokeAux, hp]

lemma step_verdict_none (tf : ℚ) (run : Run) (expected : Option Expected) :
    step_verdict tf ((run, expected), none) = timeout_verdict run tf := rfl

lemma step_verdict_pretest_fail (tf : ℚ) (run : Run)
    (expected : Option Expected) (runned : Runned)
    (hp : (pretest run runned).is_failed = true) :
    step_verdict tf ((run, expected), some runned) = pretest run runned := by
  simp [step_verdict, hp]

lemma step_verdict_check (tf : ℚ) (run : Run) (e : Expected) (runned : Runned)
    (hp : (pretest run runned).is_failed = false) :
    step_verdict tf ((run, some e), some runned) = e run runned := by
  simp [step_verdict, hp]

lemma step_verdict_nochk (tf : ℚ) (run : Run) (runned : Runned)
    (hp : (pretest run runned).is_failed = false) :
    step_verdict tf ((run, none), some runned) = ok := by
  simp [step_verdict, hp]

lemma timeout_verdict_not_success (run : Run) (tf : ℚ) :
    (timeout_verdict run tf).is_success = false := rfl

lemma invokeAux_timeout (tf : ℚ) (steps : List (SingleTest × Option Runned)) :
    ∀ (n i : Nat) (st : SingleTest),
      steps[i]? = some (st, none) →
      Event.runStep (n + i) ∈ (invokeAux tf n steps).2 →
      (invokeAux tf n steps).1 = timeout_verdict st.1 tf ∧
      Event.checkStep (n + i) ∉ (invokeAux tf n steps).2 ∧
      ∀ j, i < j → Event.runStep (n + j) ∉ (invokeAux tf n steps).2 ∧
                   Event.checkStep (n + j) ∉ (invokeAux tf n steps).2 := by
  induction steps with
  | nil => intro n i st hst _; simp at hst
  | cons hd rest ih =>
    intro n i st hst hmem
    obtain ⟨⟨run, expected⟩, oRunned⟩ := hd
    cases i with
    | zero =>
      simp only [List.getElem?_cons_zero, Option.some_inj, Prod.mk.injEq] at hst
      obtain ⟨hst1, hst2⟩ := hst
      subst hst2
      rw [invokeAux_cons_none]
      refine ⟨by rw [← hst1], by simp, ?_⟩
      intro j hj
      constructor <;> simp
      omega
    | succ k =>
      simp only [List.getElem?_cons_succ] at hst
      have hne : n + (k + 1) ≠ n := by omega
      cases oRunned with
      | none =>
        rw [invokeAux_cons_none] at hmem
        exact absurd hmem (by simp [hne])
      | some runned =>
        cases hp : (pretest run runned).is_failed with
        | true =>
          rw [invokeAux_cons_pretest_fail tf n run expected runned rest hp] at hmem
          exact absurd hmem (by simp [hne])
        | false =>
          have hkey : n + (k + 1) = (n + 1) + k := by omega
          cases expected with
          | some e =>
            cases he : (e run runned).is_failed with
            | true =>
              rw [invokeAux_cons_check_fail tf n run e runned rest hp he] at hmem
              exact absurd hmem (by simp [hne])
            | false =>
              rw [invokeAux_cons_check_ok tf n run e runned rest hp he] at hmem ⊢
              have hmem' : Event.runStep ((n + 1) + k) ∈ (invokeAux tf (n + 1) rest).2 := by
                rw [← hkey]
                simpa [hne] using hmem
              obtain ⟨ihv, ihc, ihl⟩ := ih (n + 1) k st hst hmem'
              refine ⟨ihv, ?_, ?_⟩
              · simp only [List.mem_cons, not_or]
                refine ⟨by simp, by simp [hne], ?_⟩
                rw [hkey]
                exact ihc
              · intro j hj
                have hjr := ihl (j - 1) (by omega)
                have hje : (n + 1) + (j - 1) = n + j := by omega
                rw [hje] at hjr
                constructor <;>
                  · simp only [List.mem_cons, not_or]
                    exact ⟨by simp <;> omega, by simp <;> omega, by tauto⟩
          | none =>
            rw [invokeAux_cons_nochk tf n run runned rest hp] at hmem ⊢
            have hmem' : Event.runStep ((n + 1) + k) ∈ (invokeAux tf (n + 1) rest).2 := by
              rw [← hkey]
              simpa [hne] using hmem
            obtain ⟨ihv, ihc, ihl⟩ := ih (n + 1) k st hst hmem'
            refine ⟨ihv, ?_, ?_⟩
            · simp only [List.mem_cons, not_or]
              refine ⟨by simp, ?_⟩
              rw [hkey]
              exact ihc
            · intro j hj
              have hjr := ihl (j - 1) (by omega)
              have hje : (n + 1) + (j - 1) = n + j := by omega
              rw [hje] at hjr
              constructor <;>
                · simp only [List.mem_cons, not_or]
                  exact ⟨by simp <;> omega, by tauto⟩

/-- C4: for every scenario, if the Process Runner signals timeout on step
`i` (the step is reached and no outcome is produced), the scenario's
verdict is exactly the `Timeout` verdict for that step and is returned
immediately: no checker is invoked for step `i`, and no step after `i` is
run nor checked. -/
theorem c4_timeout_short_circuits (tf : ℚ)
    (steps : List (SingleTest × Option Runned)) (i : Nat) (st : SingleTest)
    (hstep : steps[i]? = some (st, none))
    (hrun : Event.runStep i ∈ (invoke tf steps).2) :
    (invoke tf steps).1 = timeout_verdict st.1 tf ∧
    (invoke tf steps).1.verdict_errno = .ERROR_TIMEOUT ∧
    Event.checkStep i ∉ (invoke tf steps).2 ∧
    ∀ j, i < j → Event.runStep j ∉ (invoke tf steps).2 ∧
                 Event.checkStep j ∉ (invoke tf steps).2 := by
  have h := invokeAux_timeout tf steps 0 i st hstep (by simpa [invoke] using hrun)
  have hv : (invoke tf steps).1 = timeout_verdict st.1 tf := h.1
  refine ⟨hv, by rw [hv]; rfl, by simpa [invoke] using h.2.1, ?_⟩
  intro j hj
  have hq := h.2.2 j hj
  simpa [invoke] using hq

/-- Witness for C4: a two-step scenario whose first step times out yields
the `Timeout` verdict, invokes no checker, and never runs the second
step. -/
theorem c4_timeout_short_circuits_witness :
    (invoke 1 [(((⟨1, none, none, .ShouldBeZero, none, none, true⟩, some (fun _ _ => ok)) :
          SingleTest), (none : Option Runned)),
        ((⟨1, none, none, .ShouldBeZero, none, none, true⟩, none),
         some ⟨0, "", "", 0, 0⟩)]).1.verdict_errno = .ERROR_TIMEOUT ∧
    Event.checkStep 0 ∉
      (invoke 1 [(((⟨1, none, none, .ShouldBeZero, none, none, true⟩, some (fun _ _ => ok)) :
          SingleTest), (none : Option Runned)),
        ((⟨1, none, none, .ShouldBeZero, none, none, true⟩, none),
         some ⟨0, "", "", 0, 0⟩)]).2 ∧
    Event.runStep 1 ∉
      (invoke 1 [(((⟨1, none, none, .ShouldBeZero, none, none, true⟩, some (fun _ _ => ok)) :
          SingleTest), (none : Option Runned)),
        ((⟨1, none, none, .ShouldBeZero, none, none, true⟩, none),
         some ⟨0, "", "", 0, 0⟩)]).2 := by
  have h := c4_timeout_short_circuits 1
    [(((⟨1, none, none, .ShouldBeZero, none, none, true⟩, some (fun _ _ => ok)) :
        SingleTest), (none : Option Runned)),
      ((⟨1, none, none, .ShouldBeZero, none, none, true⟩, none),
       some ⟨0, "", "", 0, 0⟩)]
    0 (⟨1, none, none, .ShouldBeZero, none, none, true⟩, some (fun _ _ => ok))
    rfl (by simp [invoke, invokeAux])
  exact ⟨h.2.1, h.2.2.1, (h.2.2.2 1 (by omega)).1⟩

lemma invokeAux_all_pass (tf : ℚ) (steps : List (SingleTest × Option Runned))
    (h : ∀ s ∈ steps, (step_verdict tf s).is_success = true) :
    ∀ n, (invokeAux tf n steps).1 = ok := by
  induction steps with
  | nil => intro n; rfl
  | cons hd rest ih =>
    intro n
    obtain ⟨⟨run, expected⟩, oRunned⟩ := hd
    have hhd := h _ (List.mem_cons_self _ _)
    have hrest : ∀ s ∈ rest, (step_verdict tf s).is_success = true :=
      fun s hs => h s (List.mem_cons_of_mem _ hs)
    cases oRunned with
    | none =>
      rw [step_verdict_none] at hhd
      exact absurd hhd (by simp [timeout_verdict_not_success])
    | some runned =>
      cases hp : (pretest run runned).is_failed with
      | true =>
        rw [step_verdict_pretest_fail tf run expected runned hp] at hhd
        simp [Verdict.is_failed, hhd] at hp
      | false =>
        cases expected with
        | some e =>
          rw [step_verdict_check tf run e runned hp] at hhd
          have he : (e run runned).is_failed = false := by
            simp [Verdict.is_failed, hhd]
          rw [invokeAux_cons_check_ok tf n run e runned rest hp he]
          exact ih hrest (n + 1)
        | none =>
          rw [invokeAux_cons_nochk tf n run runned rest hp]
          exact ih hrest (n + 1)

lemma invokeAux_first_fail (tf : ℚ) (steps : List (SingleTest × Option Runned)) :
    ∀ (n i : Nat) (st : SingleTest × Option Runned),
      steps[i]? = some st →
      (∀ j stj, j < i → steps[j]? = some stj →
        (step_verdict tf stj).is_success = true) →
      (step_verdict tf st).is_success = false →
      (invokeAux tf n steps).1 = step_verdict tf st ∧
      ∀ k, i < k → Event.runStep (n + k) ∉ (invokeAux tf n steps).2 := by
  induction steps with
  | nil => intro n i st hst _ _; simp at hst
  | cons hd rest ih =>
    intro n i st hst hpass hfail
    obtain ⟨⟨run, expected⟩, oRunned⟩ := hd
    cases i with
    | zero =>
      simp only [List.getElem?_cons_zero, Option.some_inj] at hst
      subst hst
      cases oRunned with
      | none =>
        rw [invokeAux_cons_none, step_verdict_none]
        refine ⟨rfl, ?_⟩
        intro k hk
        simp
        omega
      | some runned =>
        cases hp : (pretest run runned).is_failed with
        | true =>
          rw [invokeAux_cons_pretest_fail tf n run expected runned rest hp,
              step_verdict_pretest_fail tf run expected runned hp]
          refine ⟨rfl, ?_⟩
          intro k hk
          simp
          omega
        | false =>
          cases expected with
          | some e =>
            rw [step_verdict_check tf run e runned hp] at hfail ⊢
            cases he : (e run runned).is_failed with
            | true =>
              rw [invokeAux_cons_check_fail tf n run e runned rest hp he]
              refine ⟨rfl, ?_⟩
              intro k hk
              simp
              omega
            | false =>
              exact absurd hfail (by simp [Verdict.is_failed] at he; simp [he])
          | none =>
            rw [step_verdict_nochk tf run runned hp] at hfail
            exact absurd hfail (by simp [ok, Verdict.is_success])
    | succ m =>
      simp only [List.getElem?_cons_succ] at hst
      have hhd : (step_verdict tf ((run, expected), oRunned)).is_success = true :=
        hpass 0 _ (by omega) (by simp)
      have hpass' : ∀ j stj, j < m → rest[j]? = some stj →
          (step_verdict tf stj).is_success = true :=
        fun j stj hj hstj => hpass (j + 1) stj (by omega) (by simpa using hstj)
      cases oRunned with
      | none =>
        rw [step_verdict_none] at hhd
        exact absurd hhd (by simp [timeout_verdict_not_success])
      | some runned =>
        cases hp : (pretest run runned).is_failed with
        | true =>
          rw [step_verdict_pretest_fail tf run expected runned hp] at hhd
          simp [Verdict.is_failed, hhd] at hp
        | false =>
          have harith : ∀ k, m + 1 < k → (n + 1) + (k - 1) = n + k := by
            intro k hk
            omega
          cases expected with
          | some e =>
            rw [step_verdict_check tf run e runned hp] at hhd
            have he : (e run runned).is_failed = false := by
              simp [Verdict.is_failed, hhd]
            rw [invokeAux_cons_check_ok tf n run e runned rest hp he]
            obtain ⟨ihv, ihl⟩ := ih (n + 1) m st hst hpass' hfail
            refine ⟨ihv, ?_⟩
            intro k hk
            have hkr := ihl (k - 1) (by omega)
            rw [harith k hk] at hkr
            simp only [List.mem_cons, not_or]
            exact ⟨by simp; omega, by simp, hkr⟩
          | none =>
            rw [invokeAux_cons_nochk tf n run runned rest hp]
            obtain ⟨ihv, ihl⟩ := ih (n + 1) m st hst hpass' hfail
            refine ⟨ihv, ?_⟩
            intro k hk
            have hkr := ihl (k - 1) (by omega)
            rw [harith k hk] at hkr
            simp only [List.mem_cons, not_or]
            exact ⟨by simp; omega, hkr⟩

/-- C5 counterexample: the claim's clause that whenever every executed step
passes the uniform precondition check, the scenario's final verdict equals
exactly the checker's verdict on the last executed step, fails for a
checker returning a decorated success verdict: here the single step passes
the precondition check and its checker runs and returns a success verdict
carrying a message, yet the scenario verdict is the fresh canonical `ok()`
(built by the loop's fall-through), which differs from the checker's
verdict as a value. -/
theorem c5_checker_verdict_counterexample :
    pretest ⟨1, none, none, .MatchIfPresented, none, none, true⟩
        ⟨0, "", "", 0, 0⟩ = ok ∧
    (invoke 1 [(((⟨1, none, none, .MatchIfPresented, none, none, true⟩,
        some (fun _ _ => (⟨.ERROR_SUCCESS, some "note", [], false⟩ : Verdict))) :
        SingleTest), some ⟨0, "", "", 0, 0⟩)]).2 = [.runStep 0, .checkStep 0] ∧
    (invoke 1 [(((⟨1, none, none, .MatchIfPresented, none, none, true⟩,
        some (fun _ _ => (⟨.ERROR_SUCCESS, some "note", [], false⟩ : Verdict))) :
        SingleTest), some ⟨0, "", "", 0, 0⟩)]).1 ≠
      step_verdict 1 (((⟨1, none, none, .MatchIfPresented, none, none, true⟩,
        some (fun _ _ => (⟨.ERROR_SUCCESS, some "note", [], false⟩ : Verdict))) :
        SingleTest), some ⟨0, "", "", 0, 0⟩) := by
  refine ⟨by decide, by decide, by decide⟩

/-- C5 (amended): scenario execution is strict left-to-right short-circuit
producing a single verdict: if every step passes all its checks the
scenario verdict is the canonical success verdict `ok()`; otherwise, for
the first failing step, the scenario verdict is exactly the verdict of its
first failing check — the timeout verdict, the failing precondition
verdict, or the failing checker's verdict (so whenever every executed step
passes the precondition check and the scenario fails, the final verdict is
exactly the checker's verdict on the last executed step) — and no step
after the failing one is run. -/
theorem c5_short_circuit_amended (tf : ℚ)
    (steps : List (SingleTest × Option Runned)) :
    ((∀ s ∈ steps, (step_verdict tf s).is_success = true) →
      (invoke tf steps).1 = ok) ∧
    (∀ i st, steps[i]? = some st →
      (∀ j stj, j < i → steps[j]? = some stj →
        (step_verdict tf stj).is_success = true) →
      (step_verdict tf st).is_success = false →
      (invoke tf steps).1 = step_verdict tf st ∧
      ∀ k, i < k → Event.runStep k ∉ (invoke tf steps).2) := by
  constructor
  · intro h
    exact invokeAux_all_pass tf steps h 0
  · intro i st hst hpass hfail
    obtain ⟨hv, hl⟩ := invokeAux_first_fail tf steps 0 i st hst hpass hfail
    exact ⟨hv, fun k hk => by simpa [invoke] using hl k hk⟩

/-- Witness for C5 (amended): a one-step scenario whose step passes yields
`ok()`, and a one-step scenario whose checker fails yields exactly that
step's verdict. -/
theorem c5_short_circuit_amended_witness :
    (invoke 1 [(((⟨1, none, none, .ShouldBeZero, none, none, true⟩, none) :
        SingleTest), some ⟨0, "", "", 0, 0⟩)]).1 = ok ∧
    (invoke 1 [(((⟨1, none, none, .ShouldBeZero, none, none, true⟩,
        some (fun _ _ => (⟨.ERROR_ASSERTION, none, [], false⟩ : Verdict))) :
        SingleTest), some ⟨0, "", "", 0, 0⟩)]).1 =
      step_verdict 1 (((⟨1, none, none, .ShouldBeZero, none, none, true⟩,
        some (fun _ _ => (⟨.ERROR_ASSERTION, none, [], false⟩ : Verdict))) :
        SingleTest), some ⟨0, "", "", 0, 0⟩) := by
  constructor
  · exact (c5_short_circuit_amended 1 _).1 (by
      intro s hs
      rw [List.mem_singleton] at hs
      subst hs
      decide)
  · exact ((c5_short_circuit_amended 1 _).2 0
      (((⟨1, none, none, .ShouldBeZero, none, none, true⟩,
        some (fun _ _ => (⟨.ERROR_ASSERTION, none, [], false⟩ : Verdict))) :
        SingleTest), some ⟨0, "", "", 0, 0⟩)
      (by simp)
      (by intro j stj hj _; exact absurd hj (Nat.not_lt_zero j))
      (by decide)).1

end Suite
